import Mathlib

/-! # Verification of `reindex_for_postgres` and `chronyd_exporter`

A shallow embedding of the two Go programs of the repository.

* Go strings are lists of characters.
* `fmt.Sprintf` is embedded for the verbs the programs use (`%s`, `%d`, `%v`).
* Everything the programs obtain from outside (configuration file, database
  server, scheduler of the goroutines, clock) is an explicit input.
* What the programs do to the outside (standard output, standard error, the
  log file, connections opened and closed, process exit) is an explicit trace
  of events.
-/

namespace Go

/-! ## Strings and formatting -/

/-- Text of a Go `time.Duration` is produced by the standard library
(`Duration.String`); it is an input of the embedding. A duration is its
number of nanoseconds. -/
abbrev Duration := Int

/-- Operand of a formatting verb. -/
inductive Arg where
  /-- Go `string`. -/
  | str (s : List Char)
  /-- Go `int`. -/
  | int (n : Int)
  /-- Non-nil `error`, given by the text of its `Error()` method. -/
  | err (msg : List Char)
  /-- Go `time.Duration`. -/
  | dur (d : Duration)
deriving DecidableEq, Repr

/-- Decimal text of a Go `int`, as `%d` prints it. -/
def Itoa : Int → List Char
  | Int.ofNat m => Nat.toDigits 10 m
  | Int.negSucc m => '-' :: Nat.toDigits 10 (m + 1)

/-- One verb applied to one operand. `none` stands for the combinations for
which `fmt` prints a bad-verb marker; the programs use none of them. -/
def fmtVerb (durString : Duration → List Char) : Char → Arg → Option (List Char)
  | 's', Arg.str s => some s
  | 's', Arg.err m => some m
  | 's', Arg.dur d => some (durString d)
  | 'd', Arg.int n => some (Itoa n)
  | 'd', Arg.dur d => some (Itoa d)
  | 'v', Arg.str s => some s
  | 'v', Arg.int n => some (Itoa n)
  | 'v', Arg.err m => some m
  | 'v', Arg.dur d => some (durString d)
  | _, _ => none

/-- Embedding of `fmt.Sprintf(format, args...)`: the format is copied, every
`%` followed by a verb consumes the next operand. `none` when an operand is
missing, left over, or formatted with a verb that does not fit it. -/
def Sprintf (durString : Duration → List Char) : List Char → List Arg → Option (List Char)
  | [], [] => some []
  | [], _ :: _ => none
  | '%' :: [], _ => none
  | '%' :: _ :: _, [] => none
  | '%' :: v :: rest, a :: as =>
    match fmtVerb durString v a, Sprintf durString rest as with
    | some x, some y => some (x ++ y)
    | _, _ => none
  | c :: rest, as =>
    match Sprintf durString rest as with
    | some y => some (c :: y)
    | none => none

end Go

namespace Reindex

open Go

/-- Row of `pg_indexes` kept by the program. -/
structure IndexInfo where
  SchemaName : List Char
  IndexName : List Char
deriving DecidableEq, Repr

/-- Format of the statement built at line 113 of `main`. -/
def reindexFormat : List Char := "REINDEX INDEX \"%s\".\"%s\"".toList

/-- Statement built for one index in the task loop of `main`:
`fmt.Sprintf("REINDEX INDEX \"%s\".\"%s\"", index.SchemaName, index.IndexName)`. -/
def sqlStmt (index : IndexInfo) : List Char :=
  (Sprintf (fun _ => []) reindexFormat
    [Arg.str index.SchemaName, Arg.str index.IndexName]).getD []

/-- Task loop of `main` (lines 110-117): every index is turned into a statement
and sent on the buffered channel `sqlStatements`, whose capacity is the number
of indexes, so no send blocks; `totalTasks` is incremented once per index.
The state is the channel contents and the counter. -/
def queueTasks (indexes : List IndexInfo) (totalTasks : Nat) : List (List Char) × Nat :=
  indexes.foldl (fun st index => (st.1 ++ [sqlStmt index], st.2 + 1)) ([], totalTasks)

/-! ## The worker -/

/-- What `db.Exec(sqlStmt)` and the clock give a worker for one statement: the
error (`none` for `nil`) and `time.Since(start)`. -/
structure ExecResult where
  err : Option (List Char)
  duration : Duration
deriving DecidableEq, Repr

/-- Format of the record of a failed statement (line 157). -/
def errorFormat : List Char :=
  "Worker %d: database: %s, Error executing: %s: %v".toList

/-- Format of the record of a successful statement (line 161). -/
def successFormat : List Char :=
  "Worker %d: database: %s, Successfully executed: %s (Duration: %v)".toList

/-- Record built by `worker` for one statement (lines 155-164): the branch on
`err != nil` and the two `fmt.Sprintf` calls. -/
def workerResult (durString : Duration → List Char) (id : Int) (dbNmae sqlStmt : List Char)
    (r : ExecResult) : List Char :=
  match r.err with
  | some e =>
    (Sprintf durString errorFormat
      [Arg.int id, Arg.str dbNmae, Arg.str sqlStmt, Arg.err e]).getD []
  | none =>
    (Sprintf durString successFormat
      [Arg.int id, Arg.str dbNmae, Arg.str sqlStmt, Arg.dur r.duration]).getD []

/-- What one worker has written: the lines given to `logger.Println` and the
records sent on `results`, both oldest first. -/
structure WorkerOut where
  logged : List (List Char)
  sent : List (List Char)
deriving DecidableEq, Repr

/-- Function `worker` (lines 147-166) run on its own: `pulled` is the sequence of
statements its `range jobs` receives, each with what `db.Exec` and the clock
give for it. The loop body logs the record and sends it; when the channel is
closed and drained the loop ends. -/
def worker (durString : Duration → List Char) (id : Int) (dbNmae : List Char) :
    List (List Char × ExecResult) → WorkerOut → WorkerOut
  | [], out => out
  | (sqlStmt, r) :: rest, out =>
    let result := workerResult durString id dbNmae sqlStmt r
    worker durString id dbNmae rest
      { logged := out.logged ++ [result], sent := out.sent ++ [result] }

/-! ## The pool of one database -/

/-- Where the goroutine of one worker stands. -/
inductive WState where
  /-- At the head of `for sqlStmt := range jobs`. -/
  | ready
  /-- Inside `db.Exec(sqlStmt)`. -/
  | executing (sqlStmt : List Char)
  /-- Record built and logged, at `results <- result`. -/
  | sending (result : List Char)
  /-- Returned; `wg.Done()` has run. -/
  | done
deriving DecidableEq, Repr

/-- State of the goroutines of one database, from the launch of the workers
(line 123) to the end of the loop over `results` (line 137). -/
structure Pool where
  /-- Contents of the closed channel `sqlStatements`. -/
  jobs : List (List Char)
  /-- Worker `w` (numbered from 1) is entry `w - 1`. -/
  workers : List WState
  /-- Counter of the `sync.WaitGroup`. -/
  wg : Nat
  /-- Contents of the buffered channel `results`. -/
  results : List (List Char)
  /-- Capacity of `results`. -/
  cap : Nat
  /-- Whether `close(results)` has run. -/
  closed : Bool
  /-- Number of `progress.Increment()` calls. -/
  progress : Nat
  /-- Whether the loop over `results` has ended. -/
  finished : Bool
  /-- Lines written by `logger.Println`, oldest first. -/
  logged : List (List Char)
  /-- Whether a goroutine has sent on the closed channel `results`. -/
  panicked : Bool
deriving DecidableEq, Repr

/-- One move of one goroutine. -/
inductive Action where
  /-- Worker at index `w` receives from `jobs`: the next statement, or the
  end of the closed channel, on which it returns. -/
  | recv (w : Nat)
  /-- `db.Exec` returns `r` to the worker at index `w`, which builds and logs
  its record. -/
  | exec (w : Nat) (r : ExecResult)
  /-- Worker at index `w` sends its record on `results`. -/
  | send (w : Nat)
  /-- The goroutine of lines 129-132: `wg.Wait()` returns, `close(results)`. -/
  | close
  /-- The main goroutine receives one record and increments the progress bar. -/
  | increment
  /-- The main goroutine sees `results` closed and drained: the loop ends. -/
  | finish
deriving DecidableEq, Repr

/-- Launch loop `for w := 1; w <= *numWorkers; w++` (lines 123-126): each turn
adds one to the wait group and starts one worker. `turns` bounds the number of
turns; `numWorkers.toNat` turns are enough. -/
def launchWorkers (numWorkers : Int) : Nat → Int → Pool → Pool
  | 0, _, s => s
  | turns + 1, w, s =>
    if w ≤ numWorkers then
      launchWorkers numWorkers turns (w + 1)
        { s with wg := s.wg + 1, workers := s.workers ++ [WState.ready] }
    else s

/-- Pool of one database when the main goroutine reaches the loop over
`results`: the tasks are queued and the channel closed (lines 110-117), the
workers are launched (lines 123-126). A worker that has been launched and has
not moved yet is `ready`. -/
def startPool (indexes : List IndexInfo) (numWorkers : Int) : Pool :=
  launchWorkers numWorkers numWorkers.toNat 1
    { jobs := (queueTasks indexes 0).1, workers := [], wg := 0, results := [],
      cap := indexes.length, closed := false, progress := 0, finished := false,
      logged := [], panicked := false }

/-- Effect of one move of a goroutine in a live process; `none` when the
goroutine cannot make it (it is blocked, or is not at that point of its
code). A send on the closed channel panics. -/
def move (durString : Duration → List Char) (dbName : List Char) (s : Pool) :
    Action → Option Pool
  | Action.recv w =>
    match s.workers.get? w with
    | some WState.ready =>
      match s.jobs with
      | sqlStmt :: rest =>
        some { s with jobs := rest, workers := s.workers.set w (WState.executing sqlStmt) }
      | [] => some { s with workers := s.workers.set w WState.done, wg := s.wg - 1 }
    | _ => none
  | Action.exec w r =>
    match s.workers.get? w with
    | some (WState.executing sqlStmt) =>
      let result := workerResult durString (Int.ofNat w + 1) dbName sqlStmt r
      some { s with logged := s.logged ++ [result],
                    workers := s.workers.set w (WState.sending result) }
    | _ => none
  | Action.send w =>
    match s.workers.get? w with
    | some (WState.sending result) =>
      if s.closed then some { s with panicked := true }
      else if s.results.length < s.cap then
        some { s with results := s.results ++ [result],
                      workers := s.workers.set w WState.ready }
      else none
    | _ => none
  | Action.close =>
    if s.wg = 0 ∧ s.closed = false then some { s with closed := true } else none
  | Action.increment =>
    if s.finished then none
    else
      match s.results with
      | _ :: rest => some { s with results := rest, progress := s.progress + 1 }
      | [] => none
  | Action.finish =>
    if s.closed = true ∧ s.results = [] ∧ s.finished = false then
      some { s with finished := true }
    else none

/-- Effect of one move; a process that has panicked makes no move. -/
def step (durString : Duration → List Char) (dbName : List Char) (s : Pool)
    (a : Action) : Option Pool :=
  if s.panicked then none else move durString dbName s a

/-- Run of a list of moves; `none` as soon as one of them cannot be made. -/
def run (durString : Duration → List Char) (dbName : List Char) :
    Pool → List Action → Option Pool
  | s, [] => some s
  | s, a :: rest =>
    match step durString dbName s a with
    | some s' => run durString dbName s' rest
    | none => none

/-- Number of statements inside `db.Exec` at this moment. -/
def inFlight (s : Pool) : Nat :=
  (s.workers.filter (fun w => match w with | WState.executing _ => true | _ => false)).length

/-- Move of the first worker that has not returned, `i` being the index of the
head of the list; a statement inside `db.Exec` is completed without error. -/
def firstActive : List WState → Nat → Option Action
  | [], _ => none
  | WState.ready :: _, i => some (Action.recv i)
  | WState.executing _ :: _, i => some (Action.exec i { err := none, duration := 0 })
  | WState.sending _ :: _, i => some (Action.send i)
  | WState.done :: rest, i => firstActive rest (i + 1)

/-- Move chosen when the schedule is used up: the main goroutine receives when
it can, else the first worker that has not returned moves, else the channel
`results` is closed, else the loop over it ends. -/
def nextAction (s : Pool) : Action :=
  match s.results with
  | _ :: _ => Action.increment
  | [] =>
    match firstActive s.workers 0 with
    | some a => a
    | none => if s.closed then Action.finish else Action.close

/-- The moves of a schedule are made in order; one that cannot be made is
skipped. -/
def follow (durString : Duration → List Char) (dbName : List Char) :
    Pool → List Action → Pool
  | s, [] => s
  | s, a :: rest =>
    match step durString dbName s a with
    | some s' => follow durString dbName s' rest
    | none => follow durString dbName s rest

/-- At most `n` further moves, each the one `nextAction` chooses, until the
loop over `results` has ended. -/
def drain (durString : Duration → List Char) (dbName : List Char) : Nat → Pool → Pool
  | 0, s => s
  | n + 1, s =>
    if s.finished then s
    else
      match step durString dbName s (nextAction s) with
      | some s' => drain durString dbName n s'
      | none => s

/-- Weight of a worker in the bound on the number of moves left. -/
def WState.weight : WState → Nat
  | WState.ready => 1
  | WState.executing _ => 5
  | WState.sending _ => 4
  | WState.done => 0

/-- Bound on the number of moves a pool can still make. -/
def fuel (s : Pool) : Nat :=
  5 * s.jobs.length + (s.workers.map WState.weight).sum + 2 * s.results.length
    + (if s.closed then 0 else 1) + (if s.finished then 0 else 1)
    + (if s.panicked then 0 else 1)

/-- Run of the pool of one database under a schedule in which every statement
inside `db.Exec` returns: the schedule is followed, then the goroutines are run
to the end of the loop over `results`. A run in which a statement never returns
is not a value of this function; `main` below is the program on the runs in
which every statement returns. -/
def runPool (durString : Duration → List Char) (dbName : List Char)
    (schedule : List Action) (s : Pool) : Pool :=
  let s' := follow durString dbName s schedule
  drain durString dbName (fuel s') s'

/-! ## The main goroutine -/

/-- Contents of the configuration file. -/
structure DBConfig where
  Host : List Char
  Port : List Char
  User : List Char
  Password : List Char
  DBName : List Char
  SSLMode : List Char
deriving DecidableEq, Repr

/-- What the program does to the outside, in order. Lines of the two loggers
are given without the time stamp a logger puts in front; the drawing of the
progress bar is left out. -/
inductive Event where
  /-- Text written to standard output by `fmt`. -/
  | stdout (text : List Char)
  /-- Text written to standard error by the standard logger of package `log`. -/
  | stderr (text : List Char)
  /-- Text written to the log file of the run by `logger`. -/
  | logFile (text : List Char)
  /-- `connectDB` returned a handle on this database. -/
  | connOpen (dbname : List Char)
  /-- `db.Close()` on the handle of this database. -/
  | connClose (dbname : List Char)
  /-- `go worker(w, ...)` for this database. -/
  | launch (w : Int) (dbname : List Char)
  /-- The process ends with this status. -/
  | exit (code : Nat)
deriving DecidableEq, Repr

/-- Result set of a query as the program reads it: what `rows.Scan` gives for
each row that `rows.Next` yields, in order, and the error `rows.Err()` holds
once `rows.Next` has returned false. -/
structure Rows (α : Type) where
  scans : List (Except (List Char) α)
  err : Option (List Char)

/-- Everything the run takes from outside. An error is given by its text. -/
structure Env where
  /-- Reading and decoding the file at the given path. -/
  readConfig : List Char → Except (List Char) DBConfig
  /-- Opening the log file at the given path. -/
  openLog : List Char → Except (List Char) Unit
  /-- `sql.Open` followed by `Ping` on the given connection string. -/
  dial : List Char → Except (List Char) Unit
  /-- `db.Query(dbsQuery)` on the first handle: the rows of `datname`. -/
  queryDatabases : Except (List Char) (Rows (List Char))
  /-- `db.Query(indexesQuery)` on the handle of the named database: the rows of
  `schemaname`, `indexname`. -/
  queryIndexes : List Char → Except (List Char) (Rows (List Char × List Char))
  /-- Moves of the goroutines while the named database is processed. -/
  schedule : List Char → List Action
  /-- Text of a duration, `Duration.String`. -/
  durString : Duration → List Char

/-- Formatting with operands that are all strings. -/
def sprintfS (format : List Char) (args : List (List Char)) : List Char :=
  (Sprintf (fun _ => []) format (args.map Arg.str)).getD []

/-- A line as `Println` writes it. -/
def line (text : List Char) : List Char := text ++ ['\n']

/-- Text as `Output` of a logger writes it: a newline is put at the end when
the text does not end with one. -/
def withNewline (text : List Char) : List Char :=
  if text.getLast? = some '\n' then text else text ++ ['\n']

/-- `log.Fatal(err)`: the error goes to standard error through the standard
logger, then `os.Exit(1)`; deferred calls do not run. -/
def fatal (err : List Char) : List Event :=
  [Event.stderr (withNewline err), Event.exit 1]

/-- `loadDBConfig` (lines 169-187). -/
def loadDBConfig (env : Env) (filePath : List Char) : Except (List Char) DBConfig :=
  env.readConfig filePath

/-- `initLogger` (lines 211-219). -/
def initLogger (env : Env) (logFilePath : List Char) : Except (List Char) Unit :=
  env.openLog logFilePath

/-- `connectDB` (lines 190-208): the connection string is built from the
configuration; on a failed `Ping` the handle is closed again and only the error
is returned. -/
def connectDB (env : Env) (config : DBConfig) : Except (List Char) Unit :=
  env.dial (sprintfS "host=%s port=%s user=%s password=%s dbname=%s sslmode=%s".toList
    [config.Host, config.Port, config.User, config.Password, config.DBName, config.SSLMode])

/-- Loop `for rows.Next()` of `fetchIndexesInfo` (lines 236-242): a row whose
`Scan` fails ends the function with that error, any other row is appended. -/
def scanIndexes : List (Except (List Char) (List Char × List Char)) → List IndexInfo →
    Except (List Char) (List IndexInfo)
  | [], indexes => Except.ok indexes
  | Except.error err :: _, _ => Except.error err
  | Except.ok (schemaName, indexName) :: rest, indexes =>
    scanIndexes rest (indexes ++ [{ SchemaName := schemaName, IndexName := indexName }])

/-- `fetchIndexesInfo` (lines 222-245) on the handle of the named database. The
function returns the rows read when `rows.Next` returns false and does not
read `rows.Err()`. -/
def fetchIndexesInfo (env : Env) (dbName : List Char) : Except (List Char) (List IndexInfo) :=
  match env.queryIndexes dbName with
  | Except.error err => Except.error err
  | Except.ok rows => scanIndexes rows.scans []

/-- Loop `for rows.Next()` of `fetchBusinessDatabases` (lines 258-264). -/
def scanDatabases : List (Except (List Char) (List Char)) → List (List Char) →
    Except (List Char) (List (List Char))
  | [], dbNames => Except.ok dbNames
  | Except.error err :: _, _ => Except.error err
  | Except.ok dbName :: rest, dbNames => scanDatabases rest (dbNames ++ [dbName])

/-- `fetchBusinessDatabases` (lines 248-267) on the first handle. The function
returns the rows read when `rows.Next` returns false and does not read
`rows.Err()`. -/
def fetchBusinessDatabases (env : Env) : Except (List Char) (List (List Char)) :=
  match env.queryDatabases with
  | Except.error err => Except.error err
  | Except.ok rows => scanDatabases rows.scans []

/-- State of `main` while it loops over the databases. -/
structure Loop where
  /-- Events so far, oldest first. -/
  trace : List Event
  /-- Databases whose `db.Close()` is deferred to the return of `main`, latest
  first. -/
  deferred : List (List Char)
  /-- Variable `totalTasks`. -/
  totalTasks : Nat
  /-- Whether `log.Fatal` has ended the process. -/
  dead : Bool
deriving DecidableEq, Repr

/-- Body of the loop over the databases (lines 87-140) for one database. The
worker at index `i` of the pool is the one started as `go worker(i + 1, ...)`. -/
def processDatabase (env : Env) (config : DBConfig) (numWorkers : Int)
    (dbName : List Char) (st : Loop) : Loop :=
  let t1 := st.trace ++ [Event.stdout (sprintfS "Start reindex on database %s\n".toList [dbName])]
  match connectDB env { config with DBName := dbName } with
  | Except.error err => { st with trace := t1 ++ fatal err, dead := true }
  | Except.ok _ =>
    let t2 := t1 ++ [Event.connOpen dbName,
      Event.logFile (sprintfS "Connected to business database: %s\n".toList [dbName])]
    match fetchIndexesInfo env dbName with
    | Except.error err => { st with trace := t2 ++ fatal err, dead := true }
    | Except.ok indexes =>
      let deferred := dbName :: st.deferred
      if indexes.length = 0 then
        { st with
          trace := t2 ++ [Event.connClose dbName,
            Event.logFile
              (sprintfS "No indexes found in database: %s, skipping...\n".toList [dbName])],
          deferred := deferred }
      else
        let started := startPool indexes numWorkers
        let pool := runPool env.durString dbName (env.schedule dbName) started
        { trace := t2
            ++ (List.range started.workers.length).map
                (fun i => Event.launch (Int.ofNat i + 1) dbName)
            ++ pool.logged.map (fun r => Event.logFile (line r))
            ++ [Event.stdout (sprintfS "database %s complate\n".toList [dbName])],
          deferred := deferred,
          totalTasks := (queueTasks indexes st.totalTasks).2,
          dead := false }

/-- Loop over the databases (lines 86-141); it stops where `log.Fatal` ends the
process. -/
def processDatabases (env : Env) (config : DBConfig) (numWorkers : Int) :
    List (List Char) → Loop → Loop
  | [], st => st
  | dbName :: rest, st =>
    let st' := processDatabase env config numWorkers dbName st
    if st'.dead then st' else processDatabases env config numWorkers rest st'

/-- State of `main` when it enters the loop over the databases (line 86): the
first handle has been opened, reported and closed again (line 74). -/
def loopStart (config : DBConfig) : Loop :=
  { trace := [Event.connOpen config.DBName,
      Event.stdout (line "Successfully connected to the postgres database".toList),
      Event.logFile (line "Successfully connected to the postgres database".toList),
      Event.connClose config.DBName],
    deferred := [], totalTasks := 0, dead := false }

/-- Function `main` (lines 33-144) from the parsed flags to the events of the run. -/
def main (env : Env) (printVersion : Bool) (configFile : List Char) (numWorkers : Int) :
    List Event :=
  if printVersion then
    [Event.stdout (sprintfS "Reindex Tool: %s\n".toList ["0.0.1".toList]), Event.exit 0]
  else
    match loadDBConfig env configFile with
    | Except.error err => fatal err
    | Except.ok config =>
      match initLogger env (sprintfS "./logs/reindex_index_%s_%s.log".toList
          [config.Host, config.Port]) with
      | Except.error err => fatal err
      | Except.ok _ =>
        match connectDB env config with
        | Except.error err => fatal err
        | Except.ok _ =>
          let t := [Event.connOpen config.DBName,
            Event.stdout (line "Successfully connected to the postgres database".toList),
            Event.logFile (line "Successfully connected to the postgres database".toList)]
          match fetchBusinessDatabases env with
          | Except.error err => t ++ fatal err
          | Except.ok businessDatabases =>
            let st := processDatabases env config numWorkers businessDatabases
              { trace := t ++ [Event.connClose config.DBName], deferred := [],
                totalTasks := 0, dead := false }
            if st.dead then st.trace
            else
              st.trace ++ [Event.logFile (line "All tasks completed".toList),
                  Event.stdout (line "All tasks completed".toList)]
                ++ st.deferred.map Event.connClose
                ++ [Event.connClose config.DBName, Event.exit 0]

/-- Handles open after one more event, latest first, given those open before
it. Closing a handle twice changes nothing. -/
def openAfter (acc : List (List Char)) : Event → List (List Char)
  | Event.connOpen d => d :: acc
  | Event.connClose d => acc.erase d
  | _ => acc

/-- Largest number of handles open at the same moment in the course of a
trace, `acc` being the handles open at its start. -/
def peakOpen : List Event → List (List Char) → Nat
  | [], acc => acc.length
  | e :: rest, acc => max acc.length (peakOpen rest (openAfter acc e))

/-- One for a worker that has not returned. -/
def WState.active : WState → Nat
  | WState.done => 0
  | _ => 1

/-- One for a worker that holds a statement or its record. -/
def WState.busy : WState → Nat
  | WState.executing _ => 1
  | WState.sending _ => 1
  | _ => 0

/-- What holds of the pool of a database at every moment. -/
structure Inv (s : Pool) : Prop where
  /-- The wait group counts the workers that have not returned. -/
  wg_eq : s.wg = (s.workers.map WState.active).sum
  /-- Every task is in exactly one place: queued, held by a worker, buffered
  in `results`, or counted by the progress bar. -/
  count : s.jobs.length + (s.workers.map WState.busy).sum + s.results.length + s.progress
    = s.cap
  /-- `results` is closed only after every worker has returned. -/
  closed_wg : s.closed = true → s.wg = 0
  /-- A worker returns only when no task is left. -/
  done_jobs : WState.done ∈ s.workers → s.jobs = []
  /-- No goroutine has sent on the closed channel. -/
  alive : s.panicked = false
  /-- The loop over `results` ends only on the closed, drained channel. -/
  fin : s.finished = true → s.closed = true ∧ s.results = []

/-! ## Scenarios -/

/-- Text of a duration that agrees with `Duration.String` from 0 to 999
nanoseconds, where Go prints `0s` or the number followed by `ns`. -/
def nsString (d : Duration) : List Char :=
  if d = 0 then "0s".toList else Itoa d ++ "ns".toList

/-- Configuration of the end-to-end scenario: host `h`, port `5432`. -/
def scenarioConfig : DBConfig :=
  { Host := "h".toList, Port := "5432".toList, User := "postgres".toList,
    Password := "secret".toList, DBName := "postgres".toList, SSLMode := "disable".toList }

/-- End-to-end scenario: the databases are `app1` and `app2`; `app1` has the
indexes `public.idx_a` and `public.idx_b`, `app2` has none; every call
succeeds and the goroutines are left to the default order. -/
def scenarioEnv : Env :=
  { readConfig := fun _ => Except.ok scenarioConfig,
    openLog := fun _ => Except.ok (),
    dial := fun _ => Except.ok (),
    queryDatabases :=
      Except.ok { scans := [Except.ok "app1".toList, Except.ok "app2".toList], err := none },
    queryIndexes := fun dbName =>
      if dbName = "app1".toList then
        Except.ok { scans := [Except.ok ("public".toList, "idx_a".toList),
                              Except.ok ("public".toList, "idx_b".toList)],
                    err := none }
      else Except.ok { scans := [], err := none },
    schedule := fun _ => [],
    durString := nsString }

/-- The scenario with the database `app1` unreachable: its `Ping` fails. -/
def unreachableEnv : Env :=
  { scenarioEnv with
    dial := fun connStr =>
      if connStr = "host=h port=5432 user=postgres password=secret dbname=app1 sslmode=disable".toList
      then Except.error "dial tcp: connection refused".toList
      else Except.ok () }

/-- Texts written to the log file of the run, oldest first. -/
def logTexts : List Event → List (List Char)
  | [] => []
  | Event.logFile text :: rest => text :: logTexts rest
  | _ :: rest => logTexts rest

/-- Opening and closing of handles in a trace, in order. -/
def connEvents : List Event → List Event
  | [] => []
  | Event.connOpen d :: rest => Event.connOpen d :: connEvents rest
  | Event.connClose d :: rest => Event.connClose d :: connEvents rest
  | _ :: rest => connEvents rest

end Reindex

namespace Chronyd

open Go

/-- `strings.Contains(s, substr)`. -/
def Contains : List Char → List Char → Bool
  | [], substr => substr.isEmpty
  | c :: s, substr => substr.isPrefixOf (c :: s) || Contains s substr

/-- `checkChronycLeapStatus` (lines 65-82): `out` is what running
`chronyc tracking` gives, its output or the error. The value is the gauge; the
second component is the line given to `log.Printf`. -/
def checkChronycLeapStatus (out : Except (List Char) (List Char)) :
    Int × Option (List Char) :=
  match out with
  | Except.error err =>
    (-1, Sprintf (fun _ => [])
      "Error checking chronyc tracking leap status: %v\n".toList [Arg.err err])
  | Except.ok out =>
    if Contains out "Leap status     : Normal".toList then (0, none)
    else if Contains out "Leap status     : Insert second".toList then (1, none)
    else if Contains out "Leap status     : Delete second".toList then (2, none)
    else if Contains out "Leap status     : Not synchronised".toList then (3, none)
    else (4, none)

end Chronyd

/-! # Theorems -/

namespace Go

theorem mem_split_unique {α : Type} (c : α) :
    ∀ (a b x y : List α), c ∉ a → c ∉ b → a ++ c :: x = b ++ c :: y → a = b ∧ x = y
  | [], [], x, y, _, _, h => by simpa using h
  | [], d :: b, x, y, _, hb, h => by
    simp only [List.nil_append, List.cons_append, List.cons.injEq] at h
    exact absurd (by simp [h.1]) hb
  | d :: a, [], x, y, ha, _, h => by
    simp only [List.nil_append, List.cons_append, List.cons.injEq] at h
    exact absurd (by simp [h.1]) ha
  | d :: a, e :: b, x, y, ha, hb, h => by
    simp only [List.cons_append, List.cons.injEq] at h
    have ha' : c ∉ a := fun hc => ha (List.mem_cons_of_mem _ hc)
    have hb' : c ∉ b := fun hc => hb (List.mem_cons_of_mem _ hc)
    obtain ⟨h1, h2⟩ := mem_split_unique c a b x y ha' hb' h.2
    exact ⟨by rw [h.1, h1], h2⟩

theorem mem_split_unique_right {α : Type} (c : α) (a b x y : List α)
    (ha : c ∉ a) (hb : c ∉ b) (h : x ++ c :: a = y ++ c :: b) : x = y ∧ a = b := by
  have h' := congrArg List.reverse h
  simp only [List.reverse_append, List.reverse_cons, List.append_assoc,
    List.singleton_append] at h'
  obtain ⟨h1, h2⟩ := mem_split_unique c a.reverse b.reverse x.reverse y.reverse
    (by simpa using ha) (by simpa using hb) h'
  exact ⟨List.reverse_injective h2, List.reverse_injective h1⟩

end Go

namespace Reindex

open Go

theorem sqlStmt_eq (index : IndexInfo) :
    sqlStmt index = "REINDEX INDEX \"".toList ++ index.SchemaName ++ "\".\"".toList
      ++ index.IndexName ++ "\"".toList := by
  simp [sqlStmt, reindexFormat, Sprintf, fmtVerb]

theorem queueTasks_fold (indexes : List IndexInfo) (acc : List (List Char)) (n : Nat) :
    indexes.foldl (fun st index => (st.1 ++ [sqlStmt index], st.2 + 1)) (acc, n)
      = (acc ++ indexes.map sqlStmt, n + indexes.length) := by
  induction indexes generalizing acc n with
  | nil => simp
  | cons i rest ih =>
    simp only [List.foldl_cons, ih, List.map_cons, List.length_cons, List.append_assoc,
      List.singleton_append]
    congr 1
    omega

theorem queueTasks_eq (indexes : List IndexInfo) (n : Nat) :
    queueTasks indexes n = (indexes.map sqlStmt, n + indexes.length) := by
  simp [queueTasks, queueTasks_fold]

end Reindex

namespace Reindex

open Go

theorem launchWorkers_eq (numWorkers : Int) :
    ∀ (turns : Nat) (w : Int) (s : Pool),
      launchWorkers numWorkers turns w s =
        { s with wg := s.wg + min turns (numWorkers + 1 - w).toNat,
                 workers := s.workers
                   ++ List.replicate (min turns (numWorkers + 1 - w).toNat) WState.ready }
  | 0, w, s => by simp [launchWorkers]
  | turns + 1, w, s => by
    unfold launchWorkers
    by_cases h : w ≤ numWorkers
    · rw [if_pos h, launchWorkers_eq numWorkers turns (w + 1)]
      have e : (numWorkers + 1 - w).toNat = (numWorkers + 1 - (w + 1)).toNat + 1 := by omega
      rw [e, Nat.succ_min_succ]
      simp [List.replicate_succ, Nat.add_assoc, Nat.add_comm 1]
    · rw [if_neg h]
      have e : (numWorkers + 1 - w).toNat = 0 := by omega
      simp [e]

theorem startPool_eq (indexes : List IndexInfo) (numWorkers : Int) :
    startPool indexes numWorkers =
      { jobs := indexes.map sqlStmt, workers := List.replicate numWorkers.toNat WState.ready,
        wg := numWorkers.toNat, results := [], cap := indexes.length, closed := false,
        progress := 0, finished := false, logged := [], panicked := false } := by
  simp [startPool, launchWorkers_eq, queueTasks_eq]

theorem sum_map_set (f : WState → Nat) :
    ∀ (l : List WState) (i : Nat) (x y : WState), l.get? i = some y →
      ((l.set i x).map f).sum + f y = (l.map f).sum + f x
  | [], i, x, y, h => by simp at h
  | a :: l, 0, x, y, h => by
    simp only [List.get?_cons_zero, Option.some.injEq] at h
    subst h
    simp only [List.set_cons_zero, List.map_cons, List.sum_cons]
    omega
  | a :: l, i + 1, x, y, h => by
    simp only [List.get?_cons_succ] at h
    have := sum_map_set f l i x y h
    simp only [List.set_cons_succ, List.map_cons, List.sum_cons]
    omega

theorem sum_map_replicate_ready (f : WState → Nat) (n : Nat) :
    ((List.replicate n WState.ready).map f).sum = n * f WState.ready := by
  induction n with
  | zero => simp
  | succ n ih => simp [List.replicate_succ, ih, Nat.succ_mul, Nat.add_comm]

theorem inv_startPool (indexes : List IndexInfo) (numWorkers : Int) :
    Inv (startPool indexes numWorkers) := by
  rw [startPool_eq]
  refine ⟨?_, ?_, ?_, ?_, rfl, ?_⟩
  · simp [sum_map_replicate_ready, WState.active]
  · simp [sum_map_replicate_ready, WState.busy]
  · simp
  · intro h
    simp [List.mem_replicate] at h
  · simp

end Reindex

namespace Reindex

open Go

theorem le_sum_map (f : WState → Nat) (hf : f WState.done = 0) (l : List WState) (i : Nat)
    (y : WState) (h : l.get? i = some y) : f y ≤ (l.map f).sum := by
  have := sum_map_set f l i WState.done y h
  omega

theorem step_eq_move {d : Duration → List Char} {db : List Char} {s s' : Pool} {a : Action}
    (h : step d db s a = some s') : s.panicked = false ∧ move d db s a = some s' := by
  unfold step at h
  cases hp : s.panicked with
  | true => simp [hp] at h
  | false => simpa [hp] using h

theorem inv_step {d : Duration → List Char} {db : List Char} {s s' : Pool} {a : Action}
    (hinv : Inv s) (h : step d db s a = some s') : Inv s' := by
  obtain ⟨hp, h⟩ := step_eq_move h
  obtain ⟨hwg, hcount, hclosed, hdone, -, hfin⟩ := hinv
  cases a with
  | recv w =>
    simp only [move] at h
    split at h
    · rename_i hw
      have hA := sum_map_set WState.active s.workers w
      have hB := sum_map_set WState.busy s.workers w
      split at h
      · rename_i stmt rest hj
        cases h
        have hA := hA (WState.executing stmt) _ hw
        have hB := hB (WState.executing stmt) _ hw
        simp only [WState.active, WState.busy] at hA hB
        rw [hj] at hcount
        simp only [List.length_cons] at hcount
        refine ⟨by simp only; omega, by simp only; omega, hclosed, ?_, hp, hfin⟩
        intro hm
        rcases List.mem_or_eq_of_mem_set hm with hm | hm
        · have := hdone hm
          rw [hj] at this
          cases this
        · cases hm
      · rename_i hj
        cases h
        have hA := hA WState.done _ hw
        have hB := hB WState.done _ hw
        simp only [WState.active, WState.busy] at hA hB
        refine ⟨by simp only; omega, by simp only; omega, ?_, fun _ => hj, hp, hfin⟩
        intro hc
        have := hclosed hc
        simp only
        omega
    · cases h
  | exec w r =>
    simp only [move] at h
    split at h
    · rename_i stmt hw
      cases h
      have hA := sum_map_set WState.active s.workers w
        (WState.sending (workerResult d (Int.ofNat w + 1) db stmt r)) _ hw
      have hB := sum_map_set WState.busy s.workers w
        (WState.sending (workerResult d (Int.ofNat w + 1) db stmt r)) _ hw
      simp only [WState.active, WState.busy] at hA hB
      refine ⟨by simp only; omega, by simp only; omega, hclosed, ?_, hp, hfin⟩
      intro hm
      rcases List.mem_or_eq_of_mem_set hm with hm | hm
      · exact hdone hm
      · cases hm
    · cases h
  | send w =>
    simp only [move] at h
    split at h
    · rename_i result hw
      have hA := sum_map_set WState.active s.workers w WState.ready _ hw
      have hB := sum_map_set WState.busy s.workers w WState.ready _ hw
      have hle := le_sum_map WState.active rfl s.workers w _ hw
      simp only [WState.active, WState.busy] at hA hB hle
      cases hc : s.closed with
      | true =>
        have := hclosed hc
        omega
      | false =>
        simp only [hc, Bool.false_eq_true, if_false] at h
        split at h
        · cases h
          refine ⟨by simp only; omega, ?_, by simp [hc], ?_, hp, ?_⟩
          · simp only [List.length_append, List.length_singleton]
            omega
          · intro hm
            rcases List.mem_or_eq_of_mem_set hm with hm | hm
            · exact hdone hm
            · cases hm
          · intro hf
            have := (hfin hf).1
            simp [hc] at this
        · cases h
    · cases h
  | close =>
    simp only [move] at h
    split at h
    · rename_i hg
      cases h
      exact ⟨hwg, hcount, fun _ => hg.1, hdone, hp, fun hf => ⟨rfl, (hfin hf).2⟩⟩
    · cases h
  | increment =>
    simp only [move] at h
    split at h
    · cases h
    · rename_i hf
      split at h
      · rename_i x rest hr
        cases h
        rw [hr] at hcount
        simp only [List.length_cons] at hcount
        refine ⟨hwg, by simp only; omega, hclosed, hdone, hp, ?_⟩
        intro hf'
        exact absurd hf' hf
      · cases h
  | finish =>
    simp only [move] at h
    split at h
    · rename_i hg
      cases h
      exact ⟨hwg, hcount, hclosed, hdone, hp, fun _ => ⟨hg.1, hg.2.1⟩⟩
    · cases h

end Reindex

namespace Reindex

open Go

theorem step_frame {d : Duration → List Char} {db : List Char} {s s' : Pool} {a : Action}
    (h : step d db s a = some s') :
    fuel s' < fuel s ∧ s'.workers.length = s.workers.length ∧ s'.cap = s.cap := by
  obtain ⟨hp, h⟩ := step_eq_move h
  have hW := sum_map_set WState.weight s.workers
  cases a with
  | recv w =>
    simp only [move] at h
    split at h
    · rename_i hw
      split at h
      · rename_i stmt rest hj
        cases h
        have hW := hW w (WState.executing stmt) _ hw
        simp only [WState.weight] at hW
        refine ⟨?_, by simp, rfl⟩
        simp only [fuel, hj, List.length_cons, hp]
        omega
      · rename_i hj
        cases h
        have hW := hW w WState.done _ hw
        simp only [WState.weight] at hW
        refine ⟨?_, by simp, rfl⟩
        simp only [fuel, hp]
        omega
    · cases h
  | exec w r =>
    simp only [move] at h
    split at h
    · rename_i stmt hw
      cases h
      have hW := hW w (WState.sending (workerResult d (Int.ofNat w + 1) db stmt r)) _ hw
      simp only [WState.weight] at hW
      refine ⟨?_, by simp, rfl⟩
      simp only [fuel, hp]
      omega
    · cases h
  | send w =>
    simp only [move] at h
    split at h
    · rename_i result hw
      have hW := hW w WState.ready _ hw
      simp only [WState.weight] at hW
      split at h
      · cases h
        simp [fuel, hp]
      · split at h
        · cases h
          refine ⟨?_, by simp, rfl⟩
          simp only [fuel, List.length_append, List.length_singleton, hp]
          omega
        · cases h
    · cases h
  | close =>
    simp only [move] at h
    split at h
    · rename_i hg
      cases h
      simp [fuel, hg.2]
    · cases h
  | increment =>
    simp only [move] at h
    split at h
    · cases h
    · split at h
      · rename_i x rest hr
        cases h
        refine ⟨?_, rfl, rfl⟩
        simp only [fuel, hr, List.length_cons]
        omega
      · cases h
  | finish =>
    simp only [move] at h
    split at h
    · rename_i hg
      cases h
      simp [fuel, hg.2.2]
    · cases h

theorem firstActive_none :
    ∀ (l : List WState) (i : Nat), firstActive l i = none → (l.map WState.active).sum = 0
  | [], _, _ => rfl
  | WState.ready :: _, _, h => by simp [firstActive] at h
  | WState.executing _ :: _, _, h => by simp [firstActive] at h
  | WState.sending _ :: _, _, h => by simp [firstActive] at h
  | WState.done :: rest, i, h => by
    simp only [firstActive] at h
    simp [WState.active, firstActive_none rest (i + 1) h]

theorem firstActive_some :
    ∀ (l : List WState) (i : Nat) (a : Action), firstActive l i = some a →
      ∃ k, (a = Action.recv (i + k) ∧ l.get? k = some WState.ready)
        ∨ (∃ stmt, a = Action.exec (i + k) { err := none, duration := 0 }
            ∧ l.get? k = some (WState.executing stmt))
        ∨ (∃ result, a = Action.send (i + k) ∧ l.get? k = some (WState.sending result))
  | [], _, _, h => by simp [firstActive] at h
  | WState.ready :: _, i, a, h => by
    simp only [firstActive, Option.some.injEq] at h
    exact ⟨0, Or.inl ⟨h.symm, rfl⟩⟩
  | WState.executing stmt :: _, i, a, h => by
    simp only [firstActive, Option.some.injEq] at h
    exact ⟨0, Or.inr (Or.inl ⟨stmt, h.symm, rfl⟩)⟩
  | WState.sending result :: _, i, a, h => by
    simp only [firstActive, Option.some.injEq] at h
    exact ⟨0, Or.inr (Or.inr ⟨result, h.symm, rfl⟩)⟩
  | WState.done :: rest, i, a, h => by
    simp only [firstActive] at h
    obtain ⟨k, hk⟩ := firstActive_some rest (i + 1) a h
    refine ⟨k + 1, ?_⟩
    have e : i + (k + 1) = i + 1 + k := by omega
    simpa [e] using hk

end Reindex

namespace Reindex

open Go

theorem run_append (d : Duration → List Char) (db : List Char) :
    ∀ (xs ys : List Action) (s : Pool),
      run d db s (xs ++ ys) = (run d db s xs).bind (fun s' => run d db s' ys)
  | [], ys, s => by simp [run]
  | a :: xs, ys, s => by
    simp only [List.cons_append, run]
    cases step d db s a with
    | none => rfl
    | some s' => exact run_append d db xs ys s'

theorem run_frame (d : Duration → List Char) (db : List Char) :
    ∀ (acts : List Action) (s s' : Pool), Inv s → run d db s acts = some s' →
      Inv s' ∧ s'.workers.length = s.workers.length ∧ s'.cap = s.cap
  | [], s, s', hinv, h => by
    simp only [run, Option.some.injEq] at h
    subst h
    exact ⟨hinv, rfl, rfl⟩
  | a :: acts, s, s', hinv, h => by
    simp only [run] at h
    cases hs : step d db s a with
    | none => simp [hs] at h
    | some s1 =>
      simp only [hs] at h
      obtain ⟨h1, h2, h3⟩ := run_frame d db acts s1 s' (inv_step hinv hs) h
      obtain ⟨-, h4, h5⟩ := step_frame hs
      exact ⟨h1, h2.trans h4, h3.trans h5⟩

/-- While the loop over `results` has not ended, some goroutine can move,
provided a statement inside `db.Exec` may return. -/
theorem step_nextAction (d : Duration → List Char) (db : List Char) (s : Pool)
    (hinv : Inv s) (hf : s.finished = false) :
    ∃ s', step d db s (nextAction s) = some s' := by
  have hp := hinv.alive
  simp only [step, hp, Bool.false_eq_true, if_false]
  unfold nextAction
  cases hr : s.results with
  | cons x rest => simp [move, hf, hr]
  | nil =>
    simp only
    cases ha : firstActive s.workers 0 with
    | some a =>
      simp only
      obtain ⟨k, hk | ⟨stmt, hk⟩ | ⟨result, hk⟩⟩ := firstActive_some _ _ _ ha
      · obtain ⟨rfl, hw⟩ := hk
        simp only [Nat.zero_add, move, hw]
        cases s.jobs <;> simp
      · obtain ⟨rfl, hw⟩ := hk
        simp only [Nat.zero_add, move, hw]
        exact ⟨_, rfl⟩
      · obtain ⟨rfl, hw⟩ := hk
        have hle := le_sum_map WState.busy rfl s.workers k _ hw
        have hc := hinv.count
        simp only [WState.busy] at hle
        simp only [Nat.zero_add, move, hw]
        cases s.closed with
        | true => simp
        | false =>
          have : s.results.length < s.cap := by
            rw [hr] at hc ⊢
            simp only [List.length_nil] at hc ⊢
            omega
          simp [this]
    | none =>
      simp only
      have h0 := firstActive_none _ _ ha
      have hwg := hinv.wg_eq
      rw [h0] at hwg
      cases hc : s.closed with
      | true => simp [move, hc, hr, hf]
      | false => simp [move, hc, hwg]

theorem drain_finishes (d : Duration → List Char) (db : List Char) :
    ∀ (n : Nat) (s : Pool), Inv s → fuel s ≤ n →
      (drain d db n s).finished = true ∧ ∃ acts, run d db s acts = some (drain d db n s)
  | 0, s, hinv, hn => by
    have := hinv.alive
    simp [fuel, this] at hn
  | n + 1, s, hinv, hn => by
    unfold drain
    cases hf : s.finished with
    | true => exact ⟨by simpa using hf, [], by simp [run]⟩
    | false =>
      obtain ⟨s', hs⟩ := step_nextAction d db s hinv hf
      have hlt := (step_frame hs).1
      obtain ⟨h1, acts, h2⟩ := drain_finishes d db n s' (inv_step hinv hs) (by omega)
      simp only [Bool.false_eq_true, if_false, hs]
      exact ⟨h1, nextAction s :: acts, by simp [run, hs, h2]⟩

theorem follow_reachable (d : Duration → List Char) (db : List Char) :
    ∀ (sched : List Action) (s : Pool),
      ∃ acts, run d db s acts = some (follow d db s sched)
  | [], s => ⟨[], by simp [run, follow]⟩
  | a :: sched, s => by
    unfold follow
    cases hs : step d db s a with
    | none => exact follow_reachable d db sched s
    | some s' =>
      obtain ⟨acts, h⟩ := follow_reachable d db sched s'
      exact ⟨a :: acts, by simp [run, hs, h]⟩

/-- When every statement inside `db.Exec` returns, the run under a schedule
reaches the end of the loop over `results`, and is a run of moves. -/
theorem runPool_finishes (d : Duration → List Char) (db : List Char)
    (sched : List Action) (s : Pool) (hinv : Inv s) :
    (runPool d db sched s).finished = true
      ∧ ∃ acts, run d db s acts = some (runPool d db sched s) := by
  obtain ⟨a1, h1⟩ := follow_reachable d db sched s
  have hinv' := (run_frame d db a1 s _ hinv h1).1
  obtain ⟨hf, a2, h2⟩ := drain_finishes d db _ _ hinv' (Nat.le_refl _)
  refine ⟨hf, a1 ++ a2, ?_⟩
  rw [run_append, h1]
  exact h2

theorem sum_active_zero :
    ∀ (l : List WState), (l.map WState.active).sum = 0 →
      (l.map WState.busy).sum = 0 ∧ ∀ w ∈ l, w = WState.done
  | [], _ => by simp
  | w :: l, h => by
    simp only [List.map_cons, List.sum_cons] at h
    have hw : w.active = 0 := by omega
    obtain ⟨h1, h2⟩ := sum_active_zero l (by omega)
    refine ⟨?_, ?_⟩
    · simp only [List.map_cons, List.sum_cons, h1]
      cases w <;> simp [WState.active, WState.busy] at hw ⊢
    · intro x hx
      rcases List.mem_cons.1 hx with rfl | hx
      · cases x <;> simp [WState.active] at hw ⊢
      · exact h2 x hx

theorem finished_count {s : Pool} (hinv : Inv s) (hf : s.finished = true) :
    s.jobs.length + s.progress = s.cap
      ∧ (s.workers ≠ [] → s.progress = s.cap) := by
  obtain ⟨hc, hr⟩ := hinv.fin hf
  have hwg := hinv.closed_wg hc
  rw [hinv.wg_eq] at hwg
  obtain ⟨hb, hall⟩ := sum_active_zero _ hwg
  have hcount := hinv.count
  rw [hb, hr] at hcount
  simp only [List.length_nil] at hcount
  refine ⟨by omega, fun hne => ?_⟩
  obtain ⟨w, hw⟩ := List.exists_mem_of_ne_nil _ hne
  have hj := hinv.done_jobs (hall w hw ▸ hw)
  rw [hj] at hcount
  simp only [List.length_nil] at hcount
  omega

end Reindex

namespace Reindex

open Go

theorem worker_eq (d : Duration → List Char) (id : Int) (db : List Char) :
    ∀ (pulled : List (List Char × ExecResult)) (out : WorkerOut),
      worker d id db pulled out =
        { logged := out.logged ++ pulled.map (fun p => workerResult d id db p.1 p.2),
          sent := out.sent ++ pulled.map (fun p => workerResult d id db p.1 p.2) }
  | [], out => by simp [worker]
  | (stmt, r) :: rest, out => by
    simp [worker, worker_eq d id db rest]

theorem workerResult_eq (d : Duration → List Char) (id : Int) (db stmt : List Char)
    (r : ExecResult) :
    workerResult d id db stmt r =
      match r.err with
      | some e =>
        "Worker ".toList ++ Itoa id ++ ": database: ".toList ++ db
          ++ ", Error executing: ".toList ++ stmt ++ ": ".toList ++ e
      | none =>
        "Worker ".toList ++ Itoa id ++ ": database: ".toList ++ db
          ++ ", Successfully executed: ".toList ++ stmt ++ " (Duration: ".toList
          ++ d r.duration ++ ")".toList := by
  unfold workerResult
  cases r.err <;> simp [errorFormat, successFormat, Sprintf, fmtVerb]

end Reindex

namespace Chronyd

theorem contains_iff : ∀ (s substr : List Char), Contains s substr = true ↔ substr <:+: s
  | [], substr => by
    simp only [Contains, List.isEmpty_iff, List.infix_nil]
  | c :: s, substr => by
    simp only [Contains, Bool.or_eq_true, List.isPrefixOf_iff_prefix, List.infix_cons_iff,
      contains_iff s substr]

end Chronyd

namespace Reindex

open Go

theorem processDatabases_append (env : Env) (config : DBConfig) (numWorkers : Int) :
    ∀ (pre post : List (List Char)) (st : Loop),
      (processDatabases env config numWorkers pre st).dead = false →
      processDatabases env config numWorkers (pre ++ post) st
        = processDatabases env config numWorkers post
            (processDatabases env config numWorkers pre st)
  | [], post, st, _ => by simp [processDatabases]
  | d :: pre, post, st, h => by
    simp only [processDatabases, List.cons_append] at h ⊢
    cases hd : (processDatabase env config numWorkers d st).dead with
    | true => simp [hd] at h
    | false =>
      simp only [hd, Bool.false_eq_true, if_false] at h ⊢
      exact processDatabases_append env config numWorkers pre post _ h

theorem processDatabase_connect_error (env : Env) (config : DBConfig) (numWorkers : Int)
    (d err : List Char) (st : Loop)
    (h : connectDB env { config with DBName := d } = Except.error err) :
    processDatabase env config numWorkers d st =
      { st with
        trace := st.trace
          ++ [Event.stdout ("Start reindex on database ".toList ++ d ++ "\n".toList)]
          ++ fatal err,
        dead := true } := by
  simp [processDatabase, h, sprintfS, Sprintf, fmtVerb]

theorem processDatabase_indexes_error (env : Env) (config : DBConfig) (numWorkers : Int)
    (d err : List Char) (st : Loop)
    (hc : connectDB env { config with DBName := d } = Except.ok ())
    (h : fetchIndexesInfo env d = Except.error err) :
    processDatabase env config numWorkers d st =
      { st with
        trace := st.trace
          ++ [Event.stdout ("Start reindex on database ".toList ++ d ++ "\n".toList),
              Event.connOpen d,
              Event.logFile ("Connected to business database: ".toList ++ d ++ "\n".toList)]
          ++ fatal err,
        dead := true } := by
  simp [processDatabase, hc, h, sprintfS, Sprintf, fmtVerb]

theorem processDatabase_empty (env : Env) (config : DBConfig) (numWorkers : Int)
    (d : List Char) (st : Loop)
    (hc : connectDB env { config with DBName := d } = Except.ok ())
    (h : fetchIndexesInfo env d = Except.ok []) :
    processDatabase env config numWorkers d st =
      { st with
        trace := st.trace
          ++ [Event.stdout ("Start reindex on database ".toList ++ d ++ "\n".toList),
              Event.connOpen d,
              Event.logFile ("Connected to business database: ".toList ++ d ++ "\n".toList),
              Event.connClose d,
              Event.logFile
                ("No indexes found in database: ".toList ++ d ++ ", skipping...\n".toList)],
        deferred := d :: st.deferred } := by
  simp [processDatabase, hc, h, sprintfS, Sprintf, fmtVerb]

theorem main_loop_fatal (env : Env) (configFile : List Char) (numWorkers : Int)
    (config : DBConfig) (dbs : List (List Char)) (st : Loop)
    (h1 : loadDBConfig env configFile = Except.ok config)
    (h2 : initLogger env (sprintfS "./logs/reindex_index_%s_%s.log".toList
      [config.Host, config.Port]) = Except.ok ())
    (h3 : connectDB env config = Except.ok ())
    (h4 : fetchBusinessDatabases env = Except.ok dbs)
    (h5 : processDatabases env config numWorkers dbs (loopStart config) = st)
    (h6 : st.dead = true) :
    main env false configFile numWorkers = st.trace := by
  subst h5
  unfold main
  simp only [Bool.false_eq_true, if_false, h1, h2, h3, h4, List.cons_append,
    List.nil_append]
  exact if_pos h6

theorem main_early_fatal (env : Env) (configFile : List Char) (numWorkers : Int) :
    (∀ err, loadDBConfig env configFile = Except.error err →
        main env false configFile numWorkers = fatal err)
    ∧ (∀ config err, loadDBConfig env configFile = Except.ok config →
        initLogger env (sprintfS "./logs/reindex_index_%s_%s.log".toList
          [config.Host, config.Port]) = Except.ok () →
        connectDB env config = Except.error err →
        main env false configFile numWorkers = fatal err)
    ∧ (∀ config err, loadDBConfig env configFile = Except.ok config →
        initLogger env (sprintfS "./logs/reindex_index_%s_%s.log".toList
          [config.Host, config.Port]) = Except.ok () →
        connectDB env config = Except.ok () →
        fetchBusinessDatabases env = Except.error err →
        main env false configFile numWorkers =
          [Event.connOpen config.DBName,
            Event.stdout (line "Successfully connected to the postgres database".toList),
            Event.logFile (line "Successfully connected to the postgres database".toList)]
          ++ fatal err) := by
  refine ⟨?_, ?_, ?_⟩
  · intro err h1
    unfold main
    simp only [Bool.false_eq_true, if_false, h1]
  · intro config err h1 h2 h3
    unfold main
    simp only [Bool.false_eq_true, if_false, h1, h2, h3]
  · intro config err h1 h2 h3 h4
    unfold main
    simp only [Bool.false_eq_true, if_false, h1, h2, h3, h4]

end Reindex

namespace Reindex

open Go

theorem scanDatabases_error (err : List Char) :
    ∀ (scans : List (Except (List Char) (List Char))) (acc : List (List Char)),
      scanDatabases scans acc = Except.error err ↔
        ∃ (pre : List (List Char)) (post : List (Except (List Char) (List Char))), scans =
          pre.map Except.ok ++ Except.error err :: post
  | [], acc => by
    simp [scanDatabases]
  | Except.error e :: rest, acc => by
    simp only [scanDatabases, Except.error.injEq]
    constructor
    · intro h
      exact ⟨[], rest, by simp [h]⟩
    · rintro ⟨pre, post, h⟩
      cases pre with
      | nil =>
        simp only [List.map_nil, List.nil_append, List.cons.injEq, Except.error.injEq] at h
        exact h.1
      | cons x pre => simp at h
  | Except.ok x :: rest, acc => by
    simp only [scanDatabases]
    rw [scanDatabases_error err rest]
    constructor
    · rintro ⟨pre, post, h⟩
      exact ⟨x :: pre, post, by simp [h]⟩
    · rintro ⟨pre, post, h⟩
      cases pre with
      | nil => simp at h
      | cons y pre =>
        simp only [List.map_cons, List.cons_append, List.cons.injEq] at h
        exact ⟨pre, post, h.2⟩

theorem scanIndexes_error (err : List Char) :
    ∀ (scans : List (Except (List Char) (List Char × List Char))) (acc : List IndexInfo),
      scanIndexes scans acc = Except.error err ↔
        ∃ (pre : List (List Char × List Char))
          (post : List (Except (List Char) (List Char × List Char))), scans =
            pre.map Except.ok ++ Except.error err :: post
  | [], acc => by
    simp [scanIndexes]
  | Except.error e :: rest, acc => by
    simp only [scanIndexes, Except.error.injEq]
    constructor
    · intro h
      exact ⟨[], rest, by simp [h]⟩
    · rintro ⟨pre, post, h⟩
      cases pre with
      | nil =>
        simp only [List.map_nil, List.nil_append, List.cons.injEq, Except.error.injEq] at h
        exact h.1
      | cons x pre => simp at h
  | Except.ok (a, b) :: rest, acc => by
    simp only [scanIndexes]
    rw [scanIndexes_error err rest]
    constructor
    · rintro ⟨pre, post, h⟩
      exact ⟨(a, b) :: pre, post, by simp [h]⟩
    · rintro ⟨pre, post, h⟩
      cases pre with
      | nil => simp at h
      | cons y pre =>
        simp only [List.map_cons, List.cons_append, List.cons.injEq] at h
        exact ⟨pre, post, h.2⟩

/-- `fetchBusinessDatabases` returns an error exactly when the query fails or
the scan of a row fails. -/
theorem fetchBusinessDatabases_error (env : Env) (err : List Char) :
    fetchBusinessDatabases env = Except.error err ↔
      env.queryDatabases = Except.error err
      ∨ ∃ (rows : Rows (List Char)) (pre : List (List Char))
          (post : List (Except (List Char) (List Char))), env.queryDatabases = Except.ok rows
          ∧ rows.scans = pre.map Except.ok ++ Except.error err :: post := by
  unfold fetchBusinessDatabases
  cases h : env.queryDatabases with
  | error e => simp
  | ok rows => simp [scanDatabases_error]

/-- `fetchIndexesInfo` returns an error exactly when the query fails or the scan
of a row fails. -/
theorem fetchIndexesInfo_error (env : Env) (dbName err : List Char) :
    fetchIndexesInfo env dbName = Except.error err ↔
      env.queryIndexes dbName = Except.error err
      ∨ ∃ (rows : Rows (List Char × List Char)) (pre : List (List Char × List Char))
          (post : List (Except (List Char) (List Char × List Char))), env.queryIndexes dbName = Except.ok rows
          ∧ rows.scans = pre.map Except.ok ++ Except.error err :: post := by
  unfold fetchIndexesInfo
  cases h : env.queryIndexes dbName with
  | error e => simp
  | ok rows => simp [scanIndexes_error]

theorem processDatabase_trace (env : Env) (config : DBConfig) (numWorkers : Int)
    (d : List Char) (st : Loop) :
    ∃ t, (processDatabase env config numWorkers d st).trace =
      st.trace ++ Event.stdout ("Start reindex on database ".toList ++ d ++ "\n".toList) :: t := by
  unfold processDatabase
  have e : sprintfS "Start reindex on database %s\n".toList [d]
      = "Start reindex on database ".toList ++ d ++ "\n".toList := by
    simp [sprintfS, Sprintf, fmtVerb]
  rw [e]
  cases connectDB env { config with DBName := d } with
  | error err =>
    simp only [List.append_assoc, List.singleton_append]
    exact ⟨_, rfl⟩
  | ok u =>
    cases fetchIndexesInfo env d with
    | error err =>
      simp only [List.append_assoc, List.singleton_append]
      exact ⟨_, rfl⟩
    | ok indexes =>
      by_cases h0 : indexes.length = 0
      · simp only [h0, if_true, List.append_assoc, List.singleton_append]
        exact ⟨_, rfl⟩
      · simp only [h0, if_false, List.append_assoc, List.singleton_append]
        exact ⟨_, rfl⟩

theorem processDatabases_trace (env : Env) (config : DBConfig) (numWorkers : Int) :
    ∀ (dbs : List (List Char)) (st : Loop),
      ∃ t, (processDatabases env config numWorkers dbs st).trace = st.trace ++ t
  | [], st => ⟨[], by simp [processDatabases]⟩
  | d :: rest, st => by
    obtain ⟨t1, h1⟩ := processDatabase_trace env config numWorkers d st
    simp only [processDatabases]
    by_cases hd : (processDatabase env config numWorkers d st).dead = true
    · rw [if_pos hd]
      exact ⟨_, h1⟩
    · rw [if_neg hd]
      obtain ⟨t2, h2⟩ := processDatabases_trace env config numWorkers rest
        (processDatabase env config numWorkers d st)
      exact ⟨_, by rw [h2, h1, List.append_assoc]⟩

end Reindex

/-! # The claims -/

namespace Reindex

open Go

/-- C1, counterexample: with `-workers 0` and one index, closing `results` and
ending the loop over it is a complete run of the pool; it ends with no record
consumed, no progress increment, and the task still queued. -/
theorem zero_workers_no_records :
    (run nsString "app1".toList
        (startPool [{ SchemaName := "public".toList, IndexName := "idx_a".toList }] 0)
        [Action.close, Action.finish]).map
      (fun s => (s.finished, s.progress, s.jobs.length)) = some (true, 0, 1) := by
  decide

/-- C1, amended: for every database, every worker count of at least one,
every interleaving of the goroutines and every outcome of the statements: when
the loop over `results` has ended, the number of records consumed (the number
of progress increments) equals the number of indexes. -/
theorem records_equal_indexes (d : Duration → List Char) (db : List Char)
    (indexes : List IndexInfo) (numWorkers : Int) (hW : 1 ≤ numWorkers)
    (acts : List Action) (s : Pool)
    (hrun : run d db (startPool indexes numWorkers) acts = some s)
    (hfin : s.finished = true) :
    s.progress = indexes.length := by
  have hlen : (startPool indexes numWorkers).workers.length = numWorkers.toNat := by
    simp [startPool_eq]
  have hcap : (startPool indexes numWorkers).cap = indexes.length := by
    simp [startPool_eq]
  obtain ⟨hinv, hl, hc⟩ := run_frame d db acts _ s (inv_startPool indexes numWorkers) hrun
  have hne : s.workers ≠ [] := by
    intro h0
    rw [h0, hlen] at hl
    simp only [List.length_nil] at hl
    omega
  rw [(finished_count hinv hfin).2 hne, hc, hcap]

/-- C1, amended, at one worker and one index: the worker pulls the statement,
the statement succeeds after 250 ns, the record is sent and consumed, the
worker returns, `results` is closed and the loop over it ends. -/
theorem records_equal_indexes_witness :
    ∃ s, run nsString "app1".toList
        (startPool [{ SchemaName := "public".toList, IndexName := "idx_a".toList }] 1)
        [Action.recv 0, Action.exec 0 { err := none, duration := 250 }, Action.send 0,
          Action.increment, Action.recv 0, Action.close, Action.finish] = some s
      ∧ s.finished = true ∧ s.progress = 1 :=
  ⟨_, rfl, rfl, records_equal_indexes nsString "app1".toList
    [{ SchemaName := "public".toList, IndexName := "idx_a".toList }] 1 (by decide)
    [Action.recv 0, Action.exec 0 { err := none, duration := 250 }, Action.send 0,
      Action.increment, Action.recv 0, Action.close, Action.finish] _ rfl rfl⟩

/-- C2: for every sequence of statements a worker pulls and every outcome of
each execution, the worker sends exactly one record per statement, in the
order pulled, a failure not stopping it; the record at a position is the one
built from the statement and outcome at that position alone, whatever stands
before and after it. Every record sent is also logged. -/
theorem worker_one_record_per_statement (d : Duration → List Char) (id : Int)
    (db : List Char) (pulled pre post : List (List Char × ExecResult))
    (p : List Char × ExecResult) :
    (worker d id db pulled { logged := [], sent := [] }).sent
        = pulled.map (fun q => workerResult d id db q.1 q.2)
    ∧ (worker d id db pulled { logged := [], sent := [] }).sent.length = pulled.length
    ∧ (worker d id db (pre ++ p :: post) { logged := [], sent := [] }).sent.get? pre.length
        = some (workerResult d id db p.1 p.2)
    ∧ (worker d id db pulled { logged := [], sent := [] }).logged
        = (worker d id db pulled { logged := [], sent := [] }).sent := by
  refine ⟨by simp [worker_eq], by simp [worker_eq], ?_, by simp [worker_eq]⟩
  simp only [worker_eq, List.nil_append, List.map_append, List.map_cons, List.get?_eq_getElem?]
  rw [List.getElem?_append_right (by simp)]
  simp

/-- C3: the statements queued for a list of indexes are, in discovery order and
one per index, the text `REINDEX INDEX "<schema>"."<index>"` built from the
schema name and index name of that index alone; the counter of tasks grows by
the number of indexes, and these statements are the tasks of the pool. -/
theorem tasks_deterministic (indexes : List IndexInfo) (totalTasks : Nat)
    (numWorkers : Int) (d : Duration → List Char) (index : IndexInfo) :
    (queueTasks indexes totalTasks).1 = indexes.map sqlStmt
    ∧ (queueTasks indexes totalTasks).1.length = indexes.length
    ∧ (queueTasks indexes totalTasks).2 = totalTasks + indexes.length
    ∧ (startPool indexes numWorkers).jobs = indexes.map sqlStmt
    ∧ Sprintf d reindexFormat [Arg.str index.SchemaName, Arg.str index.IndexName]
        = some ("REINDEX INDEX \"".toList ++ index.SchemaName ++ "\".\"".toList
            ++ index.IndexName ++ "\"".toList)
    ∧ sqlStmt index = "REINDEX INDEX \"".toList ++ index.SchemaName ++ "\".\"".toList
        ++ index.IndexName ++ "\"".toList := by
  refine ⟨by simp [queueTasks_eq], by simp [queueTasks_eq], by simp [queueTasks_eq],
    by simp [startPool_eq], ?_, sqlStmt_eq index⟩
  simp [reindexFormat, Sprintf, fmtVerb]

set_option maxRecDepth 100000 in
/-- C4, counterexample: two failed executions of the same statement by the same
worker that differ only in the elapsed time (250 ns and 750 ns) give the same
record, and the text of the elapsed time does not occur in it. -/
theorem failed_record_without_duration :
    workerResult nsString 1 "app1".toList "REINDEX INDEX \"public\".\"idx_a\"".toList
        { err := some "deadlock detected".toList, duration := 250 }
      = workerResult nsString 1 "app1".toList "REINDEX INDEX \"public\".\"idx_a\"".toList
        { err := some "deadlock detected".toList, duration := 750 }
    ∧ ¬ (nsString 250 <:+:
        workerResult nsString 1 "app1".toList "REINDEX INDEX \"public\".\"idx_a\"".toList
          { err := some "deadlock detected".toList, duration := 250 }) := by
  decide

/-- C4, amended: the record of every execution carries the worker identity, the
database name, the statement and the indication of success or failure; the
record of a failed execution carries the error detail and not the elapsed time,
the record of a successful one carries the elapsed time. -/
theorem record_contents (d : Duration → List Char) (id : Int) (db stmt : List Char)
    (r : ExecResult) :
    workerResult d id db stmt r =
      match r.err with
      | some e =>
        "Worker ".toList ++ Itoa id ++ ": database: ".toList ++ db
          ++ ", Error executing: ".toList ++ stmt ++ ": ".toList ++ e
      | none =>
        "Worker ".toList ++ Itoa id ++ ": database: ".toList ++ db
          ++ ", Successfully executed: ".toList ++ stmt ++ " (Duration: ".toList
          ++ d r.duration ++ ")".toList :=
  workerResult_eq d id db stmt r

end Reindex

namespace Reindex

open Go

set_option maxRecDepth 100000 in
/-- C5, counterexample: when the database `app1` cannot be reached, the run
ends with the error on standard error and exit status 1, and no text written
to the log file of the run contains the error. -/
theorem fatal_not_in_log_file :
    main unreachableEnv false "./conf/config.json".toList 10 =
      [Event.connOpen "postgres".toList,
        Event.stdout "Successfully connected to the postgres database\n".toList,
        Event.logFile "Successfully connected to the postgres database\n".toList,
        Event.connClose "postgres".toList,
        Event.stdout "Start reindex on database app1\n".toList,
        Event.stderr "dial tcp: connection refused\n".toList,
        Event.exit 1]
    ∧ ¬ ∃ text ∈ logTexts (main unreachableEnv false "./conf/config.json".toList 10),
        "dial tcp: connection refused".toList <:+: text := by
  decide

/-- C5, amended: whenever loading the configuration, connecting to a database,
or the query or the scan of a row in listing the databases or in listing the
indexes of a database fails, the error is written to standard error, nothing
is written to the log file of the run for it, and the process ends at once with
status 1: these two events end the trace, and the trace does not depend on the
databases that come later. A listing returns an error exactly when its query
fails or the scan of one of its rows fails. -/
theorem fatal_to_stderr (env : Env) (configFile : List Char) (numWorkers : Int) :
    (∀ err, loadDBConfig env configFile = Except.error err →
        main env false configFile numWorkers
          = [Event.stderr (withNewline err), Event.exit 1])
    ∧ (∀ config err, loadDBConfig env configFile = Except.ok config →
        initLogger env (sprintfS "./logs/reindex_index_%s_%s.log".toList
          [config.Host, config.Port]) = Except.ok () →
        connectDB env config = Except.error err →
        main env false configFile numWorkers
          = [Event.stderr (withNewline err), Event.exit 1])
    ∧ (∀ config err, loadDBConfig env configFile = Except.ok config →
        initLogger env (sprintfS "./logs/reindex_index_%s_%s.log".toList
          [config.Host, config.Port]) = Except.ok () →
        connectDB env config = Except.ok () →
        fetchBusinessDatabases env = Except.error err →
        main env false configFile numWorkers =
          [Event.connOpen config.DBName,
            Event.stdout (line "Successfully connected to the postgres database".toList),
            Event.logFile (line "Successfully connected to the postgres database".toList),
            Event.stderr (withNewline err), Event.exit 1])
    ∧ (∀ config pre d post err, loadDBConfig env configFile = Except.ok config →
        initLogger env (sprintfS "./logs/reindex_index_%s_%s.log".toList
          [config.Host, config.Port]) = Except.ok () →
        connectDB env config = Except.ok () →
        fetchBusinessDatabases env = Except.ok (pre ++ d :: post) →
        (processDatabases env config numWorkers pre (loopStart config)).dead = false →
        (connectDB env { config with DBName := d } = Except.error err →
          main env false configFile numWorkers =
            (processDatabases env config numWorkers pre (loopStart config)).trace
              ++ [Event.stdout ("Start reindex on database ".toList ++ d ++ "\n".toList),
                  Event.stderr (withNewline err), Event.exit 1])
        ∧ (connectDB env { config with DBName := d } = Except.ok () →
          fetchIndexesInfo env d = Except.error err →
          main env false configFile numWorkers =
            (processDatabases env config numWorkers pre (loopStart config)).trace
              ++ [Event.stdout ("Start reindex on database ".toList ++ d ++ "\n".toList),
                  Event.connOpen d,
                  Event.logFile
                    ("Connected to business database: ".toList ++ d ++ "\n".toList),
                  Event.stderr (withNewline err), Event.exit 1]))
    ∧ (∀ err, fetchBusinessDatabases env = Except.error err ↔
        env.queryDatabases = Except.error err
        ∨ ∃ (rows : Rows (List Char)) (pre : List (List Char))
            (post : List (Except (List Char) (List Char))),
            env.queryDatabases = Except.ok rows
            ∧ rows.scans = pre.map Except.ok ++ Except.error err :: post)
    ∧ (∀ d err, fetchIndexesInfo env d = Except.error err ↔
        env.queryIndexes d = Except.error err
        ∨ ∃ (rows : Rows (List Char × List Char)) (pre : List (List Char × List Char))
            (post : List (Except (List Char) (List Char × List Char))),
            env.queryIndexes d = Except.ok rows
            ∧ rows.scans = pre.map Except.ok ++ Except.error err :: post) := by
  obtain ⟨e1, e2, e3⟩ := main_early_fatal env configFile numWorkers
  refine ⟨fun err h => by simpa [fatal] using e1 err h,
    fun config err h1 h2 h3 => by simpa [fatal] using e2 config err h1 h2 h3,
    fun config err h1 h2 h3 h4 => by simpa [fatal] using e3 config err h1 h2 h3 h4,
    fun config pre d post err h1 h2 h3 h4 hpre => ⟨fun hc => ?_, fun hc hi => ?_⟩,
    fetchBusinessDatabases_error env, fetchIndexesInfo_error env⟩
  · have hst := processDatabases_append env config numWorkers pre (d :: post)
      (loopStart config) hpre
    simp only [processDatabases,
      processDatabase_connect_error env config numWorkers d err _ hc, if_true] at hst
    rw [main_loop_fatal env configFile numWorkers config _ _ h1 h2 h3 h4 hst rfl]
    simp [fatal]
  · have hst := processDatabases_append env config numWorkers pre (d :: post)
      (loopStart config) hpre
    simp only [processDatabases,
      processDatabase_indexes_error env config numWorkers d err _ hc hi, if_true] at hst
    rw [main_loop_fatal env configFile numWorkers config _ _ h1 h2 h3 h4 hst rfl]
    simp [fatal]

/-- C5, amended, at the scenario in which `app1` cannot be reached. -/
theorem fatal_to_stderr_witness :
    main unreachableEnv false "./conf/config.json".toList 10 =
      (processDatabases unreachableEnv scenarioConfig 10 [] (loopStart scenarioConfig)).trace
        ++ [Event.stdout ("Start reindex on database ".toList ++ "app1".toList ++ "\n".toList),
            Event.stderr (withNewline "dial tcp: connection refused".toList),
            Event.exit 1] :=
  ((fatal_to_stderr unreachableEnv "./conf/config.json".toList 10).2.2.2.1
    scenarioConfig [] "app1".toList ["app2".toList] "dial tcp: connection refused".toList
    rfl rfl rfl rfl rfl).1 rfl

set_option maxRecDepth 100000 in
/-- C6, the run of the end-to-end scenario: the handle of `app1`, which has
indexes, is still open when the handle of `app2` is opened, and is closed only
when `main` returns; two handles of business databases are open at once. -/
theorem connection_left_open :
    connEvents (main scenarioEnv false "./conf/config.json".toList 10) =
      [Event.connOpen "postgres".toList, Event.connClose "postgres".toList,
        Event.connOpen "app1".toList, Event.connOpen "app2".toList,
        Event.connClose "app2".toList, Event.connClose "app2".toList,
        Event.connClose "app1".toList, Event.connClose "postgres".toList]
    ∧ peakOpen (main scenarioEnv false "./conf/config.json".toList 10) [] = 2 := by
  decide

/-- C7: for a database whose index list is empty, the body of the loop adds
to the trace exactly the start line, the opening of the handle, the log line of
the connection, the closing of the handle and the log line of the skip, which
names the database: no worker is launched and no record is written; no task is
queued (the counter of tasks is unchanged); the state is not dead. The loop
then goes on: its trace carries these events, and when a database comes next
they are followed by the start line of that database. -/
theorem empty_database_skipped (env : Env) (config : DBConfig) (numWorkers : Int)
    (d next : List Char) (rest more : List (List Char)) (st : Loop)
    (hlive : st.dead = false)
    (hc : connectDB env { config with DBName := d } = Except.ok ())
    (h : fetchIndexesInfo env d = Except.ok []) :
    processDatabase env config numWorkers d st =
      { trace := st.trace
          ++ [Event.stdout ("Start reindex on database ".toList ++ d ++ "\n".toList),
              Event.connOpen d,
              Event.logFile ("Connected to business database: ".toList ++ d ++ "\n".toList),
              Event.connClose d,
              Event.logFile
                ("No indexes found in database: ".toList ++ d ++ ", skipping...\n".toList)],
        deferred := d :: st.deferred,
        totalTasks := st.totalTasks,
        dead := false }
    ∧ (∃ t, (processDatabases env config numWorkers (d :: rest) st).trace =
        st.trace
          ++ [Event.stdout ("Start reindex on database ".toList ++ d ++ "\n".toList),
              Event.connOpen d,
              Event.logFile ("Connected to business database: ".toList ++ d ++ "\n".toList),
              Event.connClose d,
              Event.logFile
                ("No indexes found in database: ".toList ++ d ++ ", skipping...\n".toList)]
          ++ t)
    ∧ (∃ t, (processDatabases env config numWorkers (d :: next :: more) st).trace =
        st.trace
          ++ [Event.stdout ("Start reindex on database ".toList ++ d ++ "\n".toList),
              Event.connOpen d,
              Event.logFile ("Connected to business database: ".toList ++ d ++ "\n".toList),
              Event.connClose d,
              Event.logFile
                ("No indexes found in database: ".toList ++ d ++ ", skipping...\n".toList)]
          ++ Event.stdout ("Start reindex on database ".toList ++ next ++ "\n".toList) :: t) := by
  have hbody := processDatabase_empty env config numWorkers d st hc h
  have hdead : (processDatabase env config numWorkers d st).dead = false := by
    rw [hbody]
    exact hlive
  refine ⟨?_, ?_, ?_⟩
  · rw [hbody]
    simp [hlive]
  · obtain ⟨t, ht⟩ := processDatabases_trace env config numWorkers rest
      (processDatabase env config numWorkers d st)
    refine ⟨t, ?_⟩
    rw [processDatabases]
    simp only [hdead, Bool.false_eq_true, if_false]
    rw [ht, hbody]
  · obtain ⟨t1, ht1⟩ := processDatabase_trace env config numWorkers next
      (processDatabase env config numWorkers d st)
    obtain ⟨t2, ht2⟩ := processDatabases_trace env config numWorkers more
      (processDatabase env config numWorkers next
        (processDatabase env config numWorkers d st))
    simp only [processDatabases]
    rw [if_neg (by simp [hdead])]
    by_cases hd : (processDatabase env config numWorkers next
        (processDatabase env config numWorkers d st)).dead = true
    · rw [if_pos hd]
      refine ⟨t1, ?_⟩
      rw [ht1, hbody]
    · rw [if_neg hd]
      refine ⟨t1 ++ t2, ?_⟩
      rw [ht2, ht1, hbody]
      simp

/-- C7, at the database `app2` of the end-to-end scenario, which has no index,
followed by `app1`. -/
theorem empty_database_skipped_witness :
    fetchIndexesInfo scenarioEnv "app2".toList = Except.ok []
    ∧ (processDatabase scenarioEnv scenarioConfig 10 "app2".toList
        (loopStart scenarioConfig)).trace =
      (loopStart scenarioConfig).trace
        ++ [Event.stdout ("Start reindex on database ".toList ++ "app2".toList ++ "\n".toList),
            Event.connOpen "app2".toList,
            Event.logFile
              ("Connected to business database: ".toList ++ "app2".toList ++ "\n".toList),
            Event.connClose "app2".toList,
            Event.logFile ("No indexes found in database: ".toList ++ "app2".toList
              ++ ", skipping...\n".toList)] :=
  ⟨rfl, congrArg Loop.trace
    (empty_database_skipped scenarioEnv scenarioConfig 10 "app2".toList "app1".toList
      ["app1".toList] [] (loopStart scenarioConfig) rfl rfl rfl).1⟩

/-- C8, counterexample: with `-workers -1` the loop of line 123 launches no
worker, so the number of workers launched is 0 and not -1, and the number of
statements inside `db.Exec`, which is 0, exceeds the worker count. -/
theorem negative_worker_count :
    ((startPool [{ SchemaName := "public".toList, IndexName := "idx_a".toList }]
        (-1)).workers.length : Int) ≠ -1
    ∧ ¬ ((inFlight (startPool
        [{ SchemaName := "public".toList, IndexName := "idx_a".toList }] (-1)) : Int) ≤ -1) := by
  decide

/-- C8, amended: for every database, every worker count that is not negative
and every interleaving of the goroutines, the loop of line 123 launches exactly
as many workers as the worker count, at every moment the number of statements
inside `db.Exec` is at most the worker count, and a worker that holds a
statement or its record cannot pull another one: each worker executes the
statements it pulls one at a time. -/
theorem inFlight_bounded (d : Duration → List Char) (db : List Char)
    (indexes : List IndexInfo) (numWorkers : Int) (acts : List Action) (s : Pool)
    (hW : 0 ≤ numWorkers)
    (hrun : run d db (startPool indexes numWorkers) acts = some s) :
    (startPool indexes numWorkers).workers = List.replicate numWorkers.toNat WState.ready
    ∧ ((startPool indexes numWorkers).workers.length : Int) = numWorkers
    ∧ (s.workers.length : Int) = numWorkers
    ∧ (inFlight s : Int) ≤ numWorkers
    ∧ (∀ w sqlStmt, s.workers.get? w = some (WState.executing sqlStmt) →
        step d db s (Action.recv w) = none)
    ∧ (∀ w result, s.workers.get? w = some (WState.sending result) →
        step d db s (Action.recv w) = none) := by
  have hl := (run_frame d db acts _ s (inv_startPool indexes numWorkers) hrun).2.1
  have hlen : (startPool indexes numWorkers).workers.length = numWorkers.toNat := by
    simp [startPool_eq]
  have hle : inFlight s ≤ s.workers.length := List.length_filter_le _ _
  refine ⟨by simp [startPool_eq], by omega, by omega, by omega, ?_, ?_⟩
  · intro w sqlStmt hw
    simp only [step, move, hw]
    split <;> rfl
  · intro w result hw
    simp only [step, move, hw]
    split <;> rfl

/-- C8, amended, at two workers that have each pulled one of two statements:
two statements are inside `db.Exec`. -/
theorem inFlight_bounded_witness :
    ∃ s, run nsString "app1".toList
        (startPool [{ SchemaName := "public".toList, IndexName := "idx_a".toList },
          { SchemaName := "public".toList, IndexName := "idx_b".toList }] 2)
        [Action.recv 0, Action.recv 1] = some s
      ∧ inFlight s = 2 ∧ (inFlight s : Int) ≤ 2 :=
  ⟨_, rfl, rfl, (inFlight_bounded nsString "app1".toList
    [{ SchemaName := "public".toList, IndexName := "idx_a".toList },
      { SchemaName := "public".toList, IndexName := "idx_b".toList }] 2
    [Action.recv 0, Action.recv 1] _ (by decide) rfl).2.2.2.1⟩

/-- C10, counterexample: the index `c` of the schema `a"."b` and the index
`b"."c` of the schema `a` are different descriptors with the same statement
text. -/
theorem statement_not_injective :
    sqlStmt { SchemaName := "a\".\"b".toList, IndexName := "c".toList }
      = sqlStmt { SchemaName := "a".toList, IndexName := "b\".\"c".toList }
    ∧ "a\".\"b".toList ≠ "a".toList ∧ "c".toList ≠ "b\".\"c".toList := by
  decide

/-- C10, amended: for every two descriptors whose schema names are both free of
the double quote, or whose index names are both free of it, equal statement
texts imply equal schema names and equal index names. -/
theorem statement_injective (a b : IndexInfo)
    (hq : ('"' ∉ a.SchemaName ∧ '"' ∉ b.SchemaName) ∨ ('"' ∉ a.IndexName ∧ '"' ∉ b.IndexName))
    (h : sqlStmt a = sqlStmt b) :
    a.SchemaName = b.SchemaName ∧ a.IndexName = b.IndexName := by
  rw [sqlStmt_eq, sqlStmt_eq] at h
  rcases hq with ⟨ha, hb⟩ | ⟨ha, hb⟩
  · have h1 : a.SchemaName ++ '"' :: ('.' :: '"' :: (a.IndexName ++ ['"']))
        = b.SchemaName ++ '"' :: ('.' :: '"' :: (b.IndexName ++ ['"'])) := by
      have h0 : "REINDEX INDEX \"".toList
            ++ (a.SchemaName ++ '"' :: ('.' :: '"' :: (a.IndexName ++ ['"'])))
          = "REINDEX INDEX \"".toList
            ++ (b.SchemaName ++ '"' :: ('.' :: '"' :: (b.IndexName ++ ['"']))) := by
        simpa [List.append_assoc] using h
      exact List.append_cancel_left h0
    obtain ⟨h2, h3⟩ := mem_split_unique '"' _ _ _ _ ha hb h1
    simp only [List.cons.injEq, true_and] at h3
    exact ⟨h2, List.append_cancel_right h3⟩
  · have h1 : ("REINDEX INDEX \"".toList ++ a.SchemaName ++ ['"', '.']) ++ '"' :: a.IndexName
        = ("REINDEX INDEX \"".toList ++ b.SchemaName ++ ['"', '.']) ++ '"' :: b.IndexName := by
      have h0 : (("REINDEX INDEX \"".toList ++ a.SchemaName ++ ['"', '.']) ++ '"' :: a.IndexName)
            ++ ['"']
          = (("REINDEX INDEX \"".toList ++ b.SchemaName ++ ['"', '.']) ++ '"' :: b.IndexName)
            ++ ['"'] := by
        simpa [List.append_assoc] using h
      exact List.append_cancel_right h0
    obtain ⟨h2, h3⟩ := mem_split_unique_right '"' _ _ _ _ ha hb h1
    have h4 := List.append_cancel_right h2
    exact ⟨List.append_cancel_left h4, h3⟩

/-- C10, amended, at the two indexes of the end-to-end scenario taken as one
descriptor. -/
theorem statement_injective_witness :
    ('"' ∉ "public".toList ∧ '"' ∉ "public".toList)
    ∧ "public".toList = "public".toList ∧ "idx_a".toList = "idx_a".toList :=
  ⟨by decide, statement_injective
    { SchemaName := "public".toList, IndexName := "idx_a".toList }
    { SchemaName := "public".toList, IndexName := "idx_a".toList }
    (Or.inl (by decide)) rfl⟩

end Reindex

namespace Chronyd

/-- C9, counterexample: when running `chronyc tracking` fails, the gauge is
-1, which is none of 0, 1, 2, 3, 4. -/
theorem leap_status_error_value :
    (checkChronycLeapStatus (Except.error "exit status 1".toList)).1 = -1
    ∧ (checkChronycLeapStatus (Except.error "exit status 1".toList)).1 ∉ [0, 1, 2, 3, 4] := by
  decide

/-- C9, amended: when running `chronyc tracking` fails the gauge is -1;
otherwise it is 0 when the output contains the line of leap status Normal,
else 1 when it contains that of Insert second, else 2 when it contains that of
Delete second, else 3 when it contains that of Not synchronised, else 4; so it
is one of 0, 1, 2, 3, 4 whenever the command has run. -/
theorem leap_status_gauge (out : Except (List Char) (List Char)) (text : List Char) :
    (checkChronycLeapStatus out).1 =
      (match out with
      | Except.error _ => -1
      | Except.ok text =>
        if "Leap status     : Normal".toList <:+: text then 0
        else if "Leap status     : Insert second".toList <:+: text then 1
        else if "Leap status     : Delete second".toList <:+: text then 2
        else if "Leap status     : Not synchronised".toList <:+: text then 3
        else 4)
    ∧ (checkChronycLeapStatus (Except.ok text)).1 ∈ [0, 1, 2, 3, 4] := by
  constructor
  · cases out with
    | error e => rfl
    | ok t =>
      simp only [checkChronycLeapStatus]
      split_ifs <;> simp_all [contains_iff]
  · simp only [checkChronycLeapStatus]
    split_ifs <;> simp

end Chronyd
